import Mathlib

/-!
Shallow embedding of the agentic LeetCode solve loop of this repository:
  * `src/leetcode/solver.py` — solve loop, result classification, submission;
  * `src/leetcode/solutions.py` — solution scraping chain and Java validity
    heuristic;
  * `src/state/progress.py` — progress store mutations.

Python strings are modelled as Lean `String`; all scanning helpers are written
structurally over `String.data` so concrete instances evaluate in the kernel.
Line splitting is modelled for newline (LF) separators, the separator used by
the judge page text this code consumes.
-/

namespace BytsAgent

/-- Whitespace characters removed by the Python `str.strip()` default. -/
def isPyWhitespace (c : Char) : Bool :=
  c = ' ' || c = '\t' || c = '\n' || c = '\r' || c = '\x0b' || c = '\x0c'

/-- Model of `str.strip()` over a character list. -/
def stripChars (l : List Char) : List Char :=
  ((l.dropWhile isPyWhitespace).reverse.dropWhile isPyWhitespace).reverse

/-- Model of the Python `str.strip()` method. -/
def pyStrip (s : String) : String := String.mk (stripChars s.data)

/-- Model of `str.lower()` (ASCII is all that the matched tokens use). -/
def lowerStr (s : String) : String := String.mk (s.data.map Char.toLower)

/-- Model of the anchored-at-start match `re.match(pat, s)` for a literal
pattern: the string starts with the given prefix text. -/
def startsWithStr (s pre : String) : Bool := pre.data.isPrefixOf s.data

/-- Whether `needle` occurs contiguously inside `hay`. -/
def isInfixList (needle : List Char) : List Char → Bool
  | [] => needle.isEmpty
  | c :: rest => needle.isPrefixOf (c :: rest) || isInfixList needle rest

/-- Model of the Python substring test `needle in hay`. -/
def containsSub (hay needle : String) : Bool := isInfixList needle.data hay.data

/-- Model of Python slicing `s[:n]` (by code points). -/
def takeStr (n : Nat) (s : String) : String := String.mk (s.data.take n)

/-- Split a character list at every newline character. -/
def splitNl : List Char → List (List Char)
  | [] => [[]]
  | c :: rest =>
    match splitNl rest with
    | [] => [[]]
    | cur :: done => if c = '\n' then [] :: cur :: done else (c :: cur) :: done

/-- Model of Python `str.splitlines()` for LF-separated text: the empty string
yields no lines, and a trailing newline does not produce a trailing empty
line. -/
def splitlinesPy (s : String) : List String :=
  if s.data.isEmpty then []
  else
    let parts := splitNl s.data
    let parts := if s.data.getLast? = some '\n' then parts.dropLast else parts
    parts.map String.mk

/-- Characters matched by the regex class `[\w]`. -/
def isWordChar (c : Char) : Bool := c.isAlphanum || c = '_'

/-- Effect of `re.sub(r"^```[\w]*\n?", "", code, flags=re.MULTILINE)` on one
line: `none` means the line (and its newline) is deleted entirely. -/
def sub1Line (l : String) : Option String :=
  if startsWithStr l "```" then
    let r := (l.data.drop 3).dropWhile isWordChar
    if r.isEmpty then none else some (String.mk r)
  else some l

/-- Apply `sub1Line` to every line; a fence that is the whole last line leaves
an empty final line because there is no trailing newline for the `\n?` to
consume. -/
def stripFences1 : List String → List String
  | [] => []
  | [l] => [(sub1Line l).getD ""]
  | l :: l2 :: rest =>
    match sub1Line l with
    | some s => s :: stripFences1 (l2 :: rest)
    | none => stripFences1 (l2 :: rest)

/-- Whether a line ends with a closing markdown fence. -/
def endsWithFence (l : String) : Bool := l.data.reverse.take 3 == "```".data

/-- Drop a trailing three-character fence from a line. -/
def dropFence (l : String) : String := String.mk (l.data.take (l.data.length - 3))

/-- Effect of `re.sub(r"\n?```$", "", code, flags=re.MULTILINE)` on one
non-first line: a line that is exactly a closing fence is deleted together
with its preceding newline, and a trailing fence is stripped from the end of
any other line. -/
def sub2Rest (l : String) : Option String :=
  if l = "```" then none
  else if endsWithFence l then some (dropFence l)
  else some l

/-- Apply the second fence-stripping substitution; the first line has no
preceding newline, so a whole-line fence there becomes an empty line. -/
def stripFences2 : List String → List String
  | [] => []
  | l :: rest =>
    (if l = "```" then ""
     else if endsWithFence l then dropFence l
     else l) :: rest.filterMap sub2Rest

/-- Join lines with newline separators. -/
def joinNl : List String → String
  | [] => ""
  | [l] => l
  | l :: l2 :: rest => l ++ "\n" ++ joinNl (l2 :: rest)

/-- Model of `_strip_markdown` in `src/leetcode/solver.py` (the same helper
appears as `_strip_fences` in `src/ai/solver.py`): remove markdown code
fences, then strip surrounding whitespace. -/
def strip_markdown (code : String) : String :=
  pyStrip (joinNl (stripFences2 (stripFences1 ((splitNl code.data).map String.mk))))

/-! ## Result classifier (`src/leetcode/solver.py`) -/

/-- Model of the `TestResult` dataclass in `src/ai/solver.py`: structured
result of a LeetCode test/submit run, with every string field defaulting to
the empty string. -/
structure TestResult where
  passed : Bool
  error_type : String := ""
  error_message : String := ""
  expected : String := ""
  actual : String := ""
deriving DecidableEq, Repr

/-- The `FAIL_INDICATORS` list of `LeetCodeSolver._run_code_and_check`, in
source order. -/
def FAIL_INDICATORS : List String :=
  ["Wrong Answer", "Runtime Error", "Time Limit Exceeded",
   "Compile Error", "Memory Limit Exceeded", "Output Limit Exceeded"]

/-- Whether a stripped line matches the regex `(?i)^expected` of
`_parse_error_context`. -/
def isExpectedLabel (l : String) : Bool := startsWithStr (lowerStr l) "expected"

/-- Whether a stripped line matches the regex `(?i)^(output|actual)` of
`_parse_error_context`. -/
def isActualLabel (l : String) : Bool :=
  startsWithStr (lowerStr l) "output" || startsWithStr (lowerStr l) "actual"

/-- The value search of `_parse_error_context`: the first non-empty stripped
line among the (at most three) lines following a label line, source range
`range(i + 1, min(i + 4, len(error_block)))`. -/
def nextVal (rest : List String) : Option String :=
  ((rest.take 3).map pyStrip).find? (fun v => !v.data.isEmpty)

/-- The per-line scan of `_parse_error_context` over the error block,
threading the `error_msg` / `expected` / `actual` accumulators exactly as the
Python `for i, line in enumerate(error_block)` loop does (note that each
matching label line overwrites the accumulator when a value is found). -/
def parseCtxStep (etype : String) :
    List String → String → String → String → String × String × String
  | [], em, ex, ac => (em, ex, ac)
  | line :: rest, em, ex, ac =>
    let l := pyStrip line
    if em = "" && containsSub l etype then parseCtxStep etype rest l ex ac
    else if isExpectedLabel l then
      parseCtxStep etype rest em ((nextVal rest).getD ex) ac
    else if isActualLabel l then
      parseCtxStep etype rest em ex ((nextVal rest).getD ac)
    else parseCtxStep etype rest em ex ac

/-- Model of `_parse_error_context` in `src/leetcode/solver.py`: find the
first line containing the matched failure token, cut a window of at most 30
lines starting there (the whole text if no line contains the token), scan it
for the error line and the labelled expected/actual values, and cap the
results at 500/300/300 characters. -/
def parse_error_context (page_text error_type : String) :
    String × String × String :=
  let lines := splitlinesPy page_text
  let error_block :=
    match lines.findIdx? (fun l => containsSub l error_type) with
    | some i => (lines.drop i).take 30
    | none => lines
  let r := parseCtxStep error_type error_block "" "" ""
  (takeStr 500 r.1, takeStr 300 r.2.1, takeStr 300 r.2.2)

/-- One poll iteration of `_run_code_and_check` applied to the page text read
in that iteration: the joint "Accepted"+"Runtime" positive signal is checked
first, then the failure tokens in `FAIL_INDICATORS` order; `none` means this
poll observed no signal and the loop keeps waiting. -/
def classifyText (text : String) : Option TestResult :=
  if containsSub text "Accepted" && containsSub text "Runtime" then
    some { passed := true }
  else
    match FAIL_INDICATORS.find? (fun f => containsSub text f) with
    | some f =>
      let r := parse_error_context text f
      some { passed := false, error_type := f,
             error_message := r.1, expected := r.2.1, actual := r.2.2 }
    | none => none

/-- The `TestResult` returned by `_run_code_and_check` when its 40-poll budget
is exhausted without a signal. -/
def timeoutResult : TestResult :=
  { passed := false, error_type := "Timeout",
    error_message := "Test result timed out after 40s" }

/-- The bounded poll loop of `_run_code_and_check`: `poll i` is the page body
text read by the `i`-th one-second poll, and `fuel` is the remaining poll
budget (40 at entry). -/
def pollLoop (poll : Nat → String) : Nat → Nat → TestResult
  | 0, _ => timeoutResult
  | fuel + 1, i =>
    match classifyText (poll i) with
    | some r => r
    | none => pollLoop poll fuel (i + 1)

/-- Model of `LeetCodeSolver._run_code_and_check`: when no Run control was
found (`run_clicked = false`) it returns `passed=true` immediately; otherwise
it polls the page text up to 40 times. -/
def run_code_and_check (run_clicked : Bool) (poll : Nat → String) : TestResult :=
  if !run_clicked then { passed := true } else pollLoop poll 40 0

/-! ## Submission (`LeetCodeSolver._submit_and_wait`) -/

/-- Page observations available to `_submit_and_wait`: whether a submit
button was found and clicked, the text of the canonical
`submission-result` locator panel when it appears within its
wait budget, and whether the accepted-specific CSS fallback indicator
appears. -/
structure SubmitEnv where
  buttonFound : Bool
  panelText : Option String
  cssFallback : Bool

/-- Model of `LeetCodeSolver._submit_and_wait`: returns whether the
submission is accepted — via the canonical result panel containing
"Accepted", or, when that panel never appears, via the CSS fallback
indicator. -/
def submit_and_wait (e : SubmitEnv) : Bool :=
  if !e.buttonFound then false
  else
    match e.panelText with
    | some t => containsSub t "Accepted"
    | none => e.cssFallback

/-! ## Agentic solve loop (`LeetCodeSolver.solve_current_problem`, Phase 2/3) -/

/-- Observable actions of one pass through the solve loop. Each constructor
records the `cycle` loop variable at which the action happened. -/
inductive Event where
  | run (cycle : Nat)
  | debug (cycle : Nat)
  | escalate (cycle : Nat)
  | submit (cycle : Nat)
deriving DecidableEq, Repr

/-- Oracle for the external effects the loop consumes on each cycle: the
classified outcome of the local run, the optional code returned by the AI
debug and escalate capabilities (the empty string is falsy in Python and
aborts like `None`), whether re-injection of the repaired code succeeds, and
the page observations of the submit step. -/
structure LoopEnv where
  runResult : Nat → TestResult
  debugResult : Nat → Option String
  escalateResult : Nat → Option String
  enterCodeOk : Nat → Bool
  submitEnv : SubmitEnv

/-- Pythonic truthiness of an optional string. -/
def truthy : Option String → Bool
  | none => false
  | some s => !s.data.isEmpty

/-- The body of `for cycle in range(1, ai_max_debug_cycles + 2)` in
`solve_current_problem`, lines 85–122 of `src/leetcode/solver.py`:
run the tests, submit on pass, exit when the budget is exhausted
(`cycle > maxD`), escalate exactly at `cycle == maxD` and debug earlier,
abort when the AI returns nothing or re-injection fails, else continue with
the next cycle. `fuel` is the number of loop iterations left
(`maxD + 1` at entry); exhausting it is the fall-through of the loop,
`return False`. Returns the final Boolean together with the event trace. -/
def solveCycles (env : LoopEnv) (maxD : Nat) : Nat → Nat → Bool × List Event
  | _, 0 => (false, [])
  | cycle, fuel + 1 =>
    if (env.runResult cycle).passed then
      (submit_and_wait env.submitEnv, [Event.run cycle, Event.submit cycle])
    else if maxD < cycle then (false, [Event.run cycle])
    else
      let repaired :=
        if cycle = maxD then env.escalateResult cycle else env.debugResult cycle
      let tag := if cycle = maxD then Event.escalate cycle else Event.debug cycle
      if truthy repaired then
        if env.enterCodeOk cycle then
          let next := solveCycles env maxD (cycle + 1) fuel
          (next.1, Event.run cycle :: tag :: next.2)
        else (false, [Event.run cycle, tag])
      else (false, [Event.run cycle, tag])

/-- The Phase 2/3 loop of `solve_current_problem`, started at `cycle = 1`
with its `maxD + 1` iterations. -/
def solveLoop (env : LoopEnv) (maxD : Nat) : Bool × List Event :=
  solveCycles env maxD 1 (maxD + 1)

/-! ## Code acquisition (`src/leetcode/solutions.py`, `LeetCodeSolver._acquire_code`) -/

/-- The `java_keywords` list of `_is_valid_java` in
`src/leetcode/solutions.py`. -/
def JAVA_KEYWORDS : List String :=
  ["class ", "public ", "return ", "\x7b", "\x7d"]

/-- Model of `_is_valid_java`: reject empty or short strings, then require at
least 4 of the 5 structural keywords to occur. -/
def is_valid_java (code : String) : Bool :=
  if code.data.isEmpty || code.data.length < 150 then false
  else 4 ≤ (JAVA_KEYWORDS.filter (fun kw => containsSub code kw)).length

/-- Page observations consumed by the scraping chain: whether the solutions
page could be opened, the collected solution links, the code extracted from
the detail page of each link index (`none` covers both navigation failure
and extraction failure), and the result of the no-links fallback
`_fallback_first_code_block` (its first code block, already stripped and
non-empty, or `none`). -/
structure ScrapeEnv where
  opened : Bool
  links : List String
  extract : Nat → Option String
  fallback : Option String

/-- Model of `LeetCodeSolutionScraper._find_java_solution`: with no links the
fallback code block is returned unvalidated; otherwise the links are tried
starting from the second (wrapping back to the first), at most 10 of them,
returning the first extracted code that passes `is_valid_java`. -/
def find_java_solution (env : ScrapeEnv) : Option String :=
  if env.links.isEmpty then env.fallback
  else
    let n := env.links.length
    let order := if 1 < n then List.range' 1 (n - 1) ++ [0] else [0]
    (order.take 10).findSome? (fun idx =>
      match env.extract idx with
      | some code => if is_valid_java code then some code else none
      | none => none)

/-- Model of `LeetCodeSolutionScraper.get_best_solution`: nothing when the
solutions page cannot be opened, else the result of the link scan. -/
def get_best_solution (env : ScrapeEnv) : Option String :=
  if !env.opened then none else find_java_solution env

/-- The AI-generation arm of `_acquire_code`: return the stripped generated
code when the generator produced a truthy string, else nothing. -/
def generate_path (gen : Option String) : Option String :=
  match gen with
  | some a => if a.data.isEmpty then none else some (strip_markdown a)
  | none => none

/-- Model of `LeetCodeSolver._acquire_code`: try scraping first and return
its stripped result when truthy, otherwise fall back to the generator. -/
def acquire_code (env : ScrapeEnv) (gen : Option String) : Option String :=
  match get_best_solution env with
  | some code =>
    if code.data.isEmpty then generate_path gen else some (strip_markdown code)
  | none => generate_path gen

/-! ## Progress store (`src/state/progress.py`) -/

/-- A JSON object mapping day names to problem-id lists, modelled as an
ordered association list (Python dicts preserve insertion order and have
unique keys). -/
abbrev DayMap := List (String × List String)

/-- A JSON object mapping course names to `DayMap`s. -/
abbrev CourseMap := List (String × DayMap)

/-- The progress store state: the per-course completed tree (the
`class_problems` / `task_problems` keys of `self.data`) and the mirrored
`failed` tree. -/
structure ProgressData where
  completed : CourseMap
  failed : CourseMap
deriving DecidableEq, Repr

/-- Dictionary lookup with a default, `d.get(k, dflt)`. -/
def lookupD : List (String × α) → String → α → α
  | [], _, dflt => dflt
  | (k', v) :: rest, k, dflt => if k' = k then v else lookupD rest k dflt

/-- Lookup-or-create followed by an in-place update: the effect of
`if k not in d: d[k] = init` followed by mutating `d[k]`. -/
def upsert (k : String) (init : α) (f : α → α) : List (String × α) → List (String × α)
  | [] => [(k, f init)]
  | (k', v) :: rest =>
    if k' = k then (k', f v) :: rest else (k', v) :: upsert k init f rest

/-- Update the value at an existing key only: the effect of mutating the
list obtained from a chain of `d.get(k, default)` calls (which creates
nothing when the key is absent). -/
def adjust (k : String) (f : α → α) : List (String × α) → List (String × α)
  | [] => []
  | (k', v) :: rest =>
    if k' = k then (k', f v) :: rest else (k', v) :: adjust k f rest

/-- The guarded append of `mark_completed` / `mark_failed`:
`if problem_id not in lst: lst.append(problem_id)`. -/
def appendIfAbsent (pid : String) (l : List String) : List String :=
  if pid ∈ l then l else l ++ [pid]

/-- The guarded removal of `mark_completed`:
`if problem_id in failed: failed.remove(problem_id)`, where `list.remove`
deletes the first occurrence. -/
def removeIfPresent (pid : String) (l : List String) : List String :=
  if pid ∈ l then l.erase pid else l

/-- Model of `ProgressTracker.mark_completed`: append the problem id to the
course/day completed list if absent (creating the course and day entries as
needed), and remove it from the list of the failed tree for the same course and
day when that list exists and contains it. -/
def mark_completed (st : ProgressData) (course day pid : String) : ProgressData :=
  { completed := upsert course [] (upsert day [] (appendIfAbsent pid)) st.completed,
    failed := adjust course (adjust day (removeIfPresent pid)) st.failed }

/-- Model of `ProgressTracker.mark_failed`: `setdefault` the course and day
entries of the failed tree, then append the problem id if absent. -/
def mark_failed (st : ProgressData) (course day pid : String) : ProgressData :=
  { st with
    failed := upsert course [] (upsert day [] (appendIfAbsent pid)) st.failed }

/-- The completed list of a course and day, as read by
`ProgressTracker.is_completed`. -/
def completedList (st : ProgressData) (course day : String) : List String :=
  lookupD (lookupD st.completed course []) day []

/-- The failed list of a course and day. -/
def failedList (st : ProgressData) (course day : String) : List String :=
  lookupD (lookupD st.failed course []) day []

/-! ## Helper lemmas about the solve loop trace -/

/-- Wherever a submit event occurs in the loop trace, the run of that same
cycle passed, the return value of the loop is the submit verdict, and the trace
ends right after the submit event. -/
theorem solveCycles_submit_shape (env : LoopEnv) (maxD : Nat) :
    ∀ fuel cycle c, Event.submit c ∈ (solveCycles env maxD cycle fuel).2 →
      (env.runResult c).passed = true ∧
      (solveCycles env maxD cycle fuel).1 = submit_and_wait env.submitEnv ∧
      ∃ pre, (solveCycles env maxD cycle fuel).2 =
        pre ++ [Event.run c, Event.submit c] := by
  intro fuel
  induction fuel with
  | zero => intro cycle c h; simp [solveCycles] at h
  | succ fuel ih =>
    intro cycle c h
    by_cases hp : (env.runResult cycle).passed = true
    · have htr : solveCycles env maxD cycle (fuel + 1) =
          (submit_and_wait env.submitEnv, [Event.run cycle, Event.submit cycle]) := by
        simp [solveCycles, hp]
      rw [htr] at h ⊢
      simp only [List.mem_cons, List.not_mem_nil, or_false] at h
      rcases h with h | h
      · exact absurd h (by simp)
      · have hc : c = cycle := by simpa using h
        subst hc
        exact ⟨hp, rfl, ⟨[], rfl⟩⟩
    · by_cases hgt : maxD < cycle
      · have htr : solveCycles env maxD cycle (fuel + 1) = (false, [Event.run cycle]) := by
          simp [solveCycles, hp, hgt]
        rw [htr] at h
        simp at h
      · by_cases htv : truthy (if cycle = maxD then env.escalateResult cycle
            else env.debugResult cycle) = true
        · by_cases hic : env.enterCodeOk cycle = true
          · have htr : solveCycles env maxD cycle (fuel + 1) =
                ((solveCycles env maxD (cycle + 1) fuel).1,
                  Event.run cycle ::
                    (if cycle = maxD then Event.escalate cycle else Event.debug cycle) ::
                    (solveCycles env maxD (cycle + 1) fuel).2) := by
              simp [solveCycles, hp, hgt, htv, hic]
            rw [htr] at h ⊢
            have hne : Event.submit c ≠
                (if cycle = maxD then Event.escalate cycle else Event.debug cycle) := by
              split <;> simp
            simp only [List.mem_cons] at h
            rcases h with h | h | h
            · exact absurd h (by simp)
            · exact absurd h hne
            · obtain ⟨h1, h2, pre, h3⟩ := ih (cycle + 1) c h
              exact ⟨h1, h2, ⟨Event.run cycle ::
                (if cycle = maxD then Event.escalate cycle else Event.debug cycle) :: pre,
                by simp [h3]⟩⟩
          · have htr : solveCycles env maxD cycle (fuel + 1) =
                (false, [Event.run cycle,
                  if cycle = maxD then Event.escalate cycle else Event.debug cycle]) := by
              simp [solveCycles, hp, hgt, htv, hic]
            rw [htr] at h
            have hne : Event.submit c ≠
                (if cycle = maxD then Event.escalate cycle else Event.debug cycle) := by
              split <;> simp
            simp only [List.mem_cons, List.not_mem_nil, or_false] at h
            rcases h with h | h
            · exact absurd h (by simp)
            · exact absurd h hne
        · have htr : solveCycles env maxD cycle (fuel + 1) =
              (false, [Event.run cycle,
                if cycle = maxD then Event.escalate cycle else Event.debug cycle]) := by
            simp [solveCycles, hp, hgt, htv]
          rw [htr] at h
          have hne : Event.submit c ≠
              (if cycle = maxD then Event.escalate cycle else Event.debug cycle) := by
            split <;> simp
          simp only [List.mem_cons, List.not_mem_nil, or_false] at h
          rcases h with h | h
          · exact absurd h (by simp)
          · exact absurd h hne

/-! ## Claim C2 -/

/-- Claim C2: in every execution of the solve loop, a submit attempt is made
only immediately after the run-and-classify step of the same cycle returned a
`TestResult` with `passed = true`; the trace never contains a submit event
while the latest outcome is failing. -/
theorem C2_submit_only_after_pass (env : LoopEnv) (maxD c : Nat)
    (h : Event.submit c ∈ (solveLoop env maxD).2) :
    (env.runResult c).passed = true ∧
    ∃ pre, (solveLoop env maxD).2 = pre ++ [Event.run c, Event.submit c] := by
  obtain ⟨h1, _, h3⟩ := solveCycles_submit_shape env maxD (maxD + 1) 1 c h
  exact ⟨h1, h3⟩

/-- An environment whose first run passes and whose submission is accepted. -/
def envC2 : LoopEnv :=
  { runResult := fun _ => { passed := true },
    debugResult := fun _ => some "class A",
    escalateResult := fun _ => some "class B",
    enterCodeOk := fun _ => true,
    submitEnv := { buttonFound := true, panelText := some "Accepted", cssFallback := false } }

/-- Witness for C2 at a concrete environment: the submit event at cycle 1 is
in the trace, and the theorem yields that the run of cycle 1 passed. -/
theorem C2_submit_only_after_pass_witness : (envC2.runResult 1).passed = true :=
  (C2_submit_only_after_pass envC2 3 1 (by decide)).1

/-! ## Claim C3 -/

/-- An environment whose first run passes but whose submission shows a
"Wrong Answer" panel, so `submit_and_wait` is not accepted. -/
def envC3 : LoopEnv :=
  { runResult := fun _ => { passed := true },
    debugResult := fun _ => some "class A",
    escalateResult := fun _ => some "class B",
    enterCodeOk := fun _ => true,
    submitEnv := { buttonFound := true, panelText := some "Wrong Answer", cssFallback := false } }

/-- Counterexample to claim C3: with `maxDebugCycles = 2` and a failing
submission at cycle 1, the loop terminates immediately with result `false`
and a trace containing no debug, escalate, or further run event — it does not
transition back to the failure branch of the Running state with a synthetic
WrongAnswer-shaped outcome. -/
theorem C3_counterexample :
    submit_and_wait envC3.submitEnv = false ∧
    solveLoop envC3 2 = (false, [Event.run 1, Event.submit 1]) := by
  constructor
  · decide
  · decide

/-- Claim C3 as amended: when the Submitting step runs, its verdict is the
final return value of the loop and the trace ends right after the submit event —
a submission that is not observed as accepted terminates the problem
immediately (returning failure) instead of re-entering the debug/escalate
retry budget. -/
theorem C3_submit_verdict_is_final (env : LoopEnv) (maxD c : Nat)
    (h : Event.submit c ∈ (solveLoop env maxD).2) :
    (solveLoop env maxD).1 = submit_and_wait env.submitEnv ∧
    ∃ pre, (solveLoop env maxD).2 = pre ++ [Event.run c, Event.submit c] := by
  obtain ⟨_, h2, h3⟩ := solveCycles_submit_shape env maxD (maxD + 1) 1 c h
  exact ⟨h2, h3⟩

/-- Witness for the amended C3 at the concrete environment of the
counterexample: the loop result equals the (failing) submit verdict. -/
theorem C3_submit_verdict_is_final_witness :
    (solveLoop envC3 2).1 = submit_and_wait envC3.submitEnv :=
  (C3_submit_verdict_is_final envC3 2 1 (by decide)).1

/-! ## Claim C4 -/

/-- Claim C4: whenever no Run control can be found
(`run_clicked = false`), the run-and-classify step returns
`passed = true` without polling (the result is independent of every page
text the polls could have read), and the loop then proceeds straight to
Submitting: the trace is exactly a run followed by a submit. -/
theorem C4_no_run_control_bypass (poll : Nat → String) (env : LoopEnv)
    (maxD : Nat) (h : env.runResult = fun _ => run_code_and_check false poll) :
    run_code_and_check false poll = { passed := true } ∧
    (solveLoop env maxD).2 = [Event.run 1, Event.submit 1] := by
  refine ⟨rfl, ?_⟩
  have hp : (env.runResult 1).passed = true := by rw [h]; rfl
  simp [solveLoop, solveCycles, hp]

/-- An environment whose run results all come from a Run-control-less
classification. -/
def envC4 : LoopEnv :=
  { runResult := fun _ => run_code_and_check false (fun _ => "Wrong Answer"),
    debugResult := fun _ => some "class A",
    escalateResult := fun _ => some "class B",
    enterCodeOk := fun _ => true,
    submitEnv := { buttonFound := true, panelText := some "Accepted", cssFallback := false } }

/-- Witness for C4: at a concrete poll oracle (whose page text even shows a
failure token) and environment, the bypass gives `passed=true` and the loop
goes straight to Submitting. -/
theorem C4_no_run_control_bypass_witness :
    run_code_and_check false (fun _ => "Wrong Answer") = { passed := true } ∧
    (solveLoop envC4 3).2 = [Event.run 1, Event.submit 1] :=
  C4_no_run_control_bypass (fun _ => "Wrong Answer") envC4 3 rfl

/-! ## Claim C5 -/

/-- Claim C5: for every raw page text containing both the token "Accepted"
and the token "Runtime", a classification poll returns `passed = true`; the
joint positive signal is checked before the failure tokens, so it wins even
when a failure token is also present in the text. -/
theorem C5_positive_signal_wins (text : String)
    (hA : containsSub text "Accepted" = true)
    (hR : containsSub text "Runtime" = true) :
    classifyText text = some { passed := true } := by
  simp [classifyText, hA, hR]

/-- Witness for C5 on a page text that also contains a failure token: the
positive signal still wins. -/
theorem C5_positive_signal_wins_witness :
    classifyText "Accepted\nRuntime: 5 ms\nWrong Answer elsewhere" =
      some { passed := true } :=
  C5_positive_signal_wins "Accepted\nRuntime: 5 ms\nWrong Answer elsewhere"
    (by decide) (by decide)

/-! ## Claim C7 -/

/-- When no poll in the remaining budget observes a signal, the poll loop
returns the timeout result. -/
theorem pollLoop_exhausted (poll : Nat → String) :
    ∀ fuel i, (∀ j, j < fuel → classifyText (poll (i + j)) = none) →
      pollLoop poll fuel i = timeoutResult := by
  intro fuel
  induction fuel with
  | zero => intro i _; rfl
  | succ fuel ih =>
    intro i h
    have h0 : classifyText (poll i) = none := by
      have := h 0 (Nat.succ_pos fuel)
      simpa using this
    rw [pollLoop, h0]
    exact ih (i + 1) fun j hj => by
      have := h (j + 1) (Nat.succ_lt_succ hj)
      simpa [Nat.add_assoc, Nat.add_comm 1 j] using this

/-- Claim C7: if the 40-poll budget is exhausted without the positive signal
or any failure token appearing, classification returns `passed = false` with
`errorKind = Timeout` and empty expected/actual evidence fields. -/
theorem C7_timeout_on_exhaustion (poll : Nat → String)
    (h : ∀ i, i < 40 → classifyText (poll i) = none) :
    run_code_and_check true poll =
      { passed := false, error_type := "Timeout",
        error_message := "Test result timed out after 40s",
        expected := "", actual := "" } := by
  have : run_code_and_check true poll = pollLoop poll 40 0 := rfl
  rw [this, pollLoop_exhausted poll 40 0 (fun j hj => by simpa using h j hj)]
  rfl

/-- Witness for C7: a poll oracle whose page text never contains any token
yields the timeout result. -/
theorem C7_timeout_on_exhaustion_witness :
    run_code_and_check true (fun _ => "still judging") =
      { passed := false, error_type := "Timeout",
        error_message := "Test result timed out after 40s",
        expected := "", actual := "" } :=
  C7_timeout_on_exhaustion (fun _ => "still judging")
    (fun i _ => (by decide : classifyText "still judging" = none))

/-! ## Claim C1 -/

/-- Does an event record an escalation? -/
def isEscalateEv : Event → Bool
  | Event.escalate _ => true
  | _ => false

/-- The run/debug event pairs of `n` consecutive failing debug cycles
starting at cycle `c`. -/
def failPairs : Nat → Nat → List Event
  | _, 0 => []
  | c, n + 1 => Event.run c :: Event.debug c :: failPairs (c + 1) n

theorem countP_isEscalateEv_failPairs : ∀ n c, (failPairs c n).countP isEscalateEv = 0 := by
  intro n
  induction n with
  | zero => intro c; rfl
  | succ n ih => intro c; simp [failPairs, List.countP_cons, isEscalateEv, ih (c + 1)]

theorem escalate_not_mem_failPairs : ∀ n c x, Event.escalate x ∉ failPairs c n := by
  intro n
  induction n with
  | zero => intro c x; simp [failPairs]
  | succ n ih => intro c x; simp [failPairs, ih (c + 1) x]

theorem debug_mem_failPairs :
    ∀ n c x, Event.debug x ∈ failPairs c n ↔ c ≤ x ∧ x < c + n := by
  intro n
  induction n with
  | zero => intro c x; simp [failPairs]
  | succ n ih =>
    intro c x
    simp [failPairs, ih (c + 1) x]
    omega

theorem run_mem_failPairs :
    ∀ n c x, Event.run x ∈ failPairs c n → c ≤ x ∧ x < c + n := by
  intro n
  induction n with
  | zero => intro c x h; simp [failPairs] at h
  | succ n ih =>
    intro c x h
    simp [failPairs] at h
    rcases h with h | h
    · omega
    · have := ih (c + 1) x h
      omega

/-- When every run fails, every AI repair returns code, and every
re-injection succeeds, the loop trace from cycle `c` (with `c + n = maxD`)
is: run/debug pairs for cycles `c .. maxD - 1`, then the run and the
escalation at cycle `maxD`, then the final failing run at `maxD + 1`. -/
theorem solveCycles_all_fail (env : LoopEnv) (maxD : Nat)
    (hfail : ∀ c, (env.runResult c).passed = false)
    (hdbg : ∀ c, truthy (env.debugResult c) = true)
    (hesc : ∀ c, truthy (env.escalateResult c) = true)
    (hinj : ∀ c, env.enterCodeOk c = true) :
    ∀ n c, c + n = maxD →
      solveCycles env maxD c (n + 2) =
        (false, failPairs c n ++
          [Event.run maxD, Event.escalate maxD, Event.run (maxD + 1)]) := by
  intro n
  induction n with
  | zero =>
    intro c hcm
    have hcm' : maxD = c := by omega
    subst hcm'
    simp [solveCycles, hfail, hesc, hinj, Nat.lt_succ_self, failPairs]
  | succ n ih =>
    intro c hcm
    have hne : ¬ c = maxD := by omega
    have hnlt : ¬ maxD < c := by omega
    have hstep : solveCycles env maxD c (n + 1 + 2) =
        ((solveCycles env maxD (c + 1) (n + 2)).1,
          Event.run c :: Event.debug c :: (solveCycles env maxD (c + 1) (n + 2)).2) := by
      simp [solveCycles, hfail, hnlt, hne, hdbg, hinj]
    rw [hstep, ih (c + 1) (by omega)]
    simp [failPairs]

/-- Claim C1: for every sequence of failing run outcomes (with the AI repair
capabilities returning code and re-injection succeeding, so the loop is not
aborted early) and a configured `maxDebugCycles ≥ 1`, the escalate capability
is invoked exactly once, and only at the cycle where the cycle index equals
`maxDebugCycles`; debug is invoked on exactly the earlier failing cycles; and
the cycle index of every loop iteration never exceeds `maxDebugCycles + 1`. -/
theorem C1_escalation_policy (env : LoopEnv) (maxD : Nat)
    (hfail : ∀ c, (env.runResult c).passed = false)
    (hdbg : ∀ c, truthy (env.debugResult c) = true)
    (hesc : ∀ c, truthy (env.escalateResult c) = true)
    (hinj : ∀ c, env.enterCodeOk c = true)
    (hmax : 1 ≤ maxD) :
    ((solveLoop env maxD).2.countP isEscalateEv = 1) ∧
    (∀ c, Event.escalate c ∈ (solveLoop env maxD).2 → c = maxD) ∧
    (∀ c, 1 ≤ c → c < maxD → Event.debug c ∈ (solveLoop env maxD).2) ∧
    (∀ c, Event.debug c ∈ (solveLoop env maxD).2 → c < maxD) ∧
    (∀ c, Event.run c ∈ (solveLoop env maxD).2 → c ≤ maxD + 1) := by
  have htr : solveLoop env maxD =
      (false, failPairs 1 (maxD - 1) ++
        [Event.run maxD, Event.escalate maxD, Event.run (maxD + 1)]) := by
    have h := solveCycles_all_fail env maxD hfail hdbg hesc hinj (maxD - 1) 1 (by omega)
    have h2 : maxD - 1 + 2 = maxD + 1 := by omega
    rw [h2] at h
    exact h
  refine ⟨?_, ?_, ?_, ?_, ?_⟩
  · rw [htr]
    simp [List.countP_append, countP_isEscalateEv_failPairs, List.countP_cons, isEscalateEv]
  · intro c hc
    rw [htr] at hc
    simp [List.mem_append] at hc
    rcases hc with hc | hc
    · exact absurd hc (escalate_not_mem_failPairs (maxD - 1) 1 c)
    · exact hc
  · intro c h1 h2
    rw [htr]
    have hm : Event.debug c ∈ failPairs 1 (maxD - 1) :=
      (debug_mem_failPairs (maxD - 1) 1 c).mpr (by omega)
    exact List.mem_append.mpr (Or.inl hm)
  · intro c hc
    rw [htr] at hc
    have hc2 : Event.debug c ∈ failPairs 1 (maxD - 1) := by
      rcases List.mem_append.mp hc with h | h
      · exact h
      · simp at h
    have := (debug_mem_failPairs (maxD - 1) 1 c).mp hc2
    omega
  · intro c hc
    rw [htr] at hc
    rcases List.mem_append.mp hc with h | h
    · have := run_mem_failPairs (maxD - 1) 1 c h
      omega
    · simp at h
      rcases h with h | h <;> omega

/-- An environment in which every run fails and every AI repair succeeds. -/
def envC1 : LoopEnv :=
  { runResult := fun _ => { passed := false, error_type := "Wrong Answer" },
    debugResult := fun _ => some "class A",
    escalateResult := fun _ => some "class B",
    enterCodeOk := fun _ => true,
    submitEnv := { buttonFound := true, panelText := none, cssFallback := false } }

/-- Witness for C1 at a concrete environment with `maxDebugCycles = 2`:
exactly one escalation occurs. -/
theorem C1_escalation_policy_witness : (solveLoop envC1 2).2.countP isEscalateEv = 1 :=
  (C1_escalation_policy envC1 2 (fun _ => rfl) (fun _ => rfl) (fun _ => rfl)
    (fun _ => rfl) (by decide)).1

/-! ## Claim C6 -/

/-- When an element satisfies the predicate and is the only satisfying
element of the list, `find?` returns it. -/
theorem find?_of_unique {p : String → Bool} :
    ∀ (l : List String) (t : String), t ∈ l → p t = true →
      (∀ u ∈ l, p u = true → u = t) → l.find? p = some t := by
  intro l
  induction l with
  | nil => intro t ht; simp at ht
  | cons a l ih =>
    intro t ht hp huniq
    by_cases hpa : p a = true
    · have hat : a = t := huniq a (List.mem_cons_self a l) hpa
      subst hat
      simp [List.find?, hpa]
    · have hta : t ≠ a := fun he => hpa (he ▸ hp)
      have ht' : t ∈ l := by
        rcases List.mem_cons.mp ht with h | h
        · exact absurd h hta
        · exact h
      have hfind := ih t ht' hp (fun u hu hpu => huniq u (List.mem_cons_of_mem a hu) hpu)
      simp [List.find?, hpa, hfind]

/-- Claim C6: for every raw page text with no "Accepted"+"Runtime" positive
pair, if exactly one of the six fixed failure tokens occurs in the text then
classification returns `passed = false` with `errorKind` equal to that token;
and in general, whenever the ordered scan of `FAIL_INDICATORS` finds its
first matching token, that token (the earliest in the fixed list order among
those present) becomes the `errorKind`. -/
theorem C6_fail_token_classification :
    (∀ text t, (containsSub text "Accepted" && containsSub text "Runtime") = false →
      t ∈ FAIL_INDICATORS → containsSub text t = true →
      (∀ u ∈ FAIL_INDICATORS, containsSub text u = true → u = t) →
      (classifyText text).map TestResult.passed = some false ∧
      (classifyText text).map TestResult.error_type = some t) ∧
    (∀ text t, (containsSub text "Accepted" && containsSub text "Runtime") = false →
      FAIL_INDICATORS.find? (fun f => containsSub text f) = some t →
      (classifyText text).map TestResult.passed = some false ∧
      (classifyText text).map TestResult.error_type = some t) := by
  have key : ∀ text t,
      (containsSub text "Accepted" && containsSub text "Runtime") = false →
      FAIL_INDICATORS.find? (fun f => containsSub text f) = some t →
      (classifyText text).map TestResult.passed = some false ∧
      (classifyText text).map TestResult.error_type = some t := by
    intro text t hpos hfind
    simp [classifyText, hpos, hfind]
  refine ⟨?_, key⟩
  intro text t hpos ht hin huniq
  exact key text t hpos (find?_of_unique FAIL_INDICATORS t ht hin huniq)

/-- Witness for C6 on a page text containing exactly the "Runtime Error"
token: classification reports a failure of that kind. -/
theorem C6_fail_token_classification_witness :
    (classifyText "Runtime Error: null pointer").map TestResult.passed = some false ∧
    (classifyText "Runtime Error: null pointer").map TestResult.error_type =
      some "Runtime Error" :=
  C6_fail_token_classification.1 "Runtime Error: null pointer" "Runtime Error"
    (by decide) (by decide) (by decide) (by decide)

/-! ## Claim C8 -/

/-- Counterexample to claim C8 (two parts). First: on a window containing
two lines matching the expected-label pattern, the value comes from the
*last* matching label ("2"), not from the first ("1") as the claim states.
Second: when the first non-empty line after the label lies more than three
lines below it, the code returns an empty value ("") instead of that first
non-empty line ("5"). -/
theorem C8_counterexample :
    parse_error_context "Wrong Answer\nExpected\n1\nExpected\n2\nOutput\n3"
        "Wrong Answer" = ("Wrong Answer", "2", "3") ∧
    parse_error_context "Wrong Answer\nExpected\n\n\n\n5" "Wrong Answer" =
      ("Wrong Answer", "", "") := by
  exact ⟨by decide, by decide⟩

/-- The `expected` value produced by the window scan is either the incoming
accumulator or the first non-empty line among the at-most-three lines
following some line of the window that matches the expected-label pattern —
never the text of the label line position itself. -/
theorem parseCtx_expected_origin (etype : String) :
    ∀ block em ex ac,
      (parseCtxStep etype block em ex ac).2.1 = ex ∨
      ∃ pre lbl suf, block = pre ++ lbl :: suf ∧
        isExpectedLabel (pyStrip lbl) = true ∧
        nextVal suf = some (parseCtxStep etype block em ex ac).2.1 := by
  intro block
  induction block with
  | nil => intro em ex ac; left; rfl
  | cons line rest ih =>
    intro em ex ac
    simp only [parseCtxStep]
    split
    · rcases ih (pyStrip line) ex ac with h | ⟨pre, lbl, suf, hb, hl, hv⟩
      · exact Or.inl h
      · exact Or.inr ⟨line :: pre, lbl, suf, by simp [hb], hl, hv⟩
    · split
      · rcases hnv : nextVal rest with _ | v
        · simp only [Option.getD_none]
          rcases ih em ex ac with h | ⟨pre, lbl, suf, hb, hl, hv⟩
          · exact Or.inl h
          · exact Or.inr ⟨line :: pre, lbl, suf, by simp [hb], hl, hv⟩
        · simp only [Option.getD_some]
          rcases ih em v ac with h | ⟨pre, lbl, suf, hb, hl, hv⟩
          · refine Or.inr ⟨[], line, rest, rfl, ?_, ?_⟩
            · assumption
            · rw [h, hnv]
          · exact Or.inr ⟨line :: pre, lbl, suf, by simp [hb], hl, hv⟩
      · split
        · rcases ih em ex ((nextVal rest).getD ac) with h | ⟨pre, lbl, suf, hb, hl, hv⟩
          · exact Or.inl h
          · exact Or.inr ⟨line :: pre, lbl, suf, by simp [hb], hl, hv⟩
        · rcases ih em ex ac with h | ⟨pre, lbl, suf, hb, hl, hv⟩
          · exact Or.inl h
          · exact Or.inr ⟨line :: pre, lbl, suf, by simp [hb], hl, hv⟩

/-- The `actual` value produced by the window scan is either the incoming
accumulator or the first non-empty line among the at-most-three lines
following some line of the window that matches the output/actual-label
pattern. -/
theorem parseCtx_actual_origin (etype : String) :
    ∀ block em ex ac,
      (parseCtxStep etype block em ex ac).2.2 = ac ∨
      ∃ pre lbl suf, block = pre ++ lbl :: suf ∧
        isActualLabel (pyStrip lbl) = true ∧
        nextVal suf = some (parseCtxStep etype block em ex ac).2.2 := by
  intro block
  induction block with
  | nil => intro em ex ac; left; rfl
  | cons line rest ih =>
    intro em ex ac
    simp only [parseCtxStep]
    split
    · rcases ih (pyStrip line) ex ac with h | ⟨pre, lbl, suf, hb, hl, hv⟩
      · exact Or.inl h
      · exact Or.inr ⟨line :: pre, lbl, suf, by simp [hb], hl, hv⟩
    · split
      · rcases ih em ((nextVal rest).getD ex) ac with h | ⟨pre, lbl, suf, hb, hl, hv⟩
        · exact Or.inl h
        · exact Or.inr ⟨line :: pre, lbl, suf, by simp [hb], hl, hv⟩
      · split
        · rcases hnv : nextVal rest with _ | v
          · simp only [Option.getD_none]
            rcases ih em ex ac with h | ⟨pre, lbl, suf, hb, hl, hv⟩
            · exact Or.inl h
            · exact Or.inr ⟨line :: pre, lbl, suf, by simp [hb], hl, hv⟩
          · simp only [Option.getD_some]
            rcases ih em ex v with h | ⟨pre, lbl, suf, hb, hl, hv⟩
            · refine Or.inr ⟨[], line, rest, rfl, ?_, ?_⟩
              · assumption
              · rw [h, hnv]
            · exact Or.inr ⟨line :: pre, lbl, suf, by simp [hb], hl, hv⟩
        · rcases ih em ex ac with h | ⟨pre, lbl, suf, hb, hl, hv⟩
          · exact Or.inl h
          · exact Or.inr ⟨line :: pre, lbl, suf, by simp [hb], hl, hv⟩

/-- The length of a capped string is at most the cap. -/
theorem takeStr_length_le (n : Nat) (s : String) : (takeStr n s).length ≤ n := by
  have h : (takeStr n s).length = (s.data.take n).length := rfl
  rw [h, List.length_take]
  exact Nat.min_le_left _ _

set_option maxRecDepth 8192 in
/-- Claim C8 as amended: evidence extraction works on a window of at most 30
lines starting at the matched line; each label line matching
`/^expected/i` (resp. `/^(output|actual)/i`) takes as value the first
non-empty line among the *at most three* lines after it (never the label
line itself), with a *later* matching label overwriting an earlier one when
it finds a value; and the returned `errorMessage`, `expected`, and `actual`
never exceed 500, 300, and 300 characters respectively. -/
theorem C8_window_labels_caps :
    (∀ text etype,
      (parse_error_context text etype).1.length ≤ 500 ∧
      (parse_error_context text etype).2.1.length ≤ 300 ∧
      (parse_error_context text etype).2.2.length ≤ 300) ∧
    (∀ text etype i,
      (splitlinesPy text).findIdx? (fun l => containsSub l etype) = some i →
      parse_error_context text etype =
        (takeStr 500 (parseCtxStep etype (((splitlinesPy text).drop i).take 30) "" "" "").1,
         takeStr 300 (parseCtxStep etype (((splitlinesPy text).drop i).take 30) "" "" "").2.1,
         takeStr 300 (parseCtxStep etype (((splitlinesPy text).drop i).take 30) "" "" "").2.2)) ∧
    (∀ etype block em ex ac,
      (parseCtxStep etype block em ex ac).2.1 = ex ∨
      ∃ pre lbl suf, block = pre ++ lbl :: suf ∧
        isExpectedLabel (pyStrip lbl) = true ∧
        nextVal suf = some (parseCtxStep etype block em ex ac).2.1) ∧
    (∀ etype block em ex ac,
      (parseCtxStep etype block em ex ac).2.2 = ac ∨
      ∃ pre lbl suf, block = pre ++ lbl :: suf ∧
        isActualLabel (pyStrip lbl) = true ∧
        nextVal suf = some (parseCtxStep etype block em ex ac).2.2) := by
  refine ⟨?_, ?_, parseCtx_expected_origin, parseCtx_actual_origin⟩
  · intro text etype
    rcases h : (splitlinesPy text).findIdx? (fun l => containsSub l etype) with _ | i <;>
      simp [parse_error_context, h, takeStr_length_le]
  · intro text etype i h
    simp [parse_error_context, h]

/-- Witness for the amended C8, discharging the window hypothesis at a
concrete page text whose failure token sits on the second line. -/
theorem C8_window_labels_caps_witness :
    parse_error_context "noise\nWrong Answer\nExpected\n7" "Wrong Answer" =
      (takeStr 500 (parseCtxStep "Wrong Answer"
          (((splitlinesPy "noise\nWrong Answer\nExpected\n7").drop 1).take 30) "" "" "").1,
       takeStr 300 (parseCtxStep "Wrong Answer"
          (((splitlinesPy "noise\nWrong Answer\nExpected\n7").drop 1).take 30) "" "" "").2.1,
       takeStr 300 (parseCtxStep "Wrong Answer"
          (((splitlinesPy "noise\nWrong Answer\nExpected\n7").drop 1).take 30) "" "" "").2.2) :=
  C8_window_labels_caps.2.1 "noise\nWrong Answer\nExpected\n7" "Wrong Answer" 1 (by decide)

/-! ## Claim C9 -/

/-- A successful `findSome?` comes from some element of the list. -/
theorem findSome?_mem {α β : Type} :
    ∀ (l : List α) (f : α → Option β) (b : β),
      l.findSome? f = some b → ∃ a ∈ l, f a = some b := by
  intro l
  induction l with
  | nil => intro f b h; simp [List.findSome?] at h
  | cons a l ih =>
    intro f b h
    rw [List.findSome?] at h
    rcases hfa : f a with _ | c
    · rw [hfa] at h
      simp only [] at h
      obtain ⟨x, hx, hfx⟩ := ih f b h
      exact ⟨x, List.mem_cons_of_mem a hx, hfx⟩
    · rw [hfa] at h
      simp only [] at h
      exact ⟨a, List.mem_cons_self a l, by rw [hfa, h]⟩

/-- Reduction of `acquire_code` when scraping produced a candidate. -/
theorem acquire_code_some (env : ScrapeEnv) (gen : Option String) (code : String)
    (h : get_best_solution env = some code) :
    acquire_code env gen =
      if code.data.isEmpty = true then generate_path gen
      else some (strip_markdown code) := by
  rw [acquire_code, h]

/-- Reduction of `acquire_code` when scraping produced nothing. -/
theorem acquire_code_none (env : ScrapeEnv) (gen : Option String)
    (h : get_best_solution env = none) :
    acquire_code env gen = generate_path gen := by
  rw [acquire_code, h]

/-- A scrape environment with no solution links whose fallback produces a
10-character code block: it fails the validity heuristic yet is accepted. -/
def envC9 : ScrapeEnv :=
  { opened := true, links := [], extract := fun _ => none, fallback := some "int x = 1;" }

/-- Counterexample to claim C9: when the solutions listing yields no links,
the emergency fallback of the scraper returns the first code block on the page
without applying the validity heuristic, and acquisition accepts this
10-character candidate even though `is_valid_java` rejects it. -/
theorem C9_counterexample :
    acquire_code envC9 none = some "int x = 1;" ∧
    is_valid_java "int x = 1;" = false := by
  exact ⟨by decide, by decide⟩

/-- Claim C9 as amended: acquisition tries scraping first; a candidate drawn
from the solution links is accepted only if it passes the validity heuristic,
but when no solution links are found the scraper returns its unvalidated
fallback code block; when the scrape path yields nothing truthy the generate
path is used; and the result is `None` exactly when neither path produced a
non-empty candidate. -/
theorem C9_acquisition_policy :
    (∀ (env : ScrapeEnv) (c : String), env.links ≠ [] →
      get_best_solution env = some c → is_valid_java c = true) ∧
    (∀ env : ScrapeEnv, env.opened = true → env.links = [] →
      get_best_solution env = env.fallback) ∧
    (∀ (env : ScrapeEnv) (gen : Option String),
      truthy (get_best_solution env) = false →
      acquire_code env gen = generate_path gen) ∧
    (∀ (env : ScrapeEnv) (gen : Option String),
      acquire_code env gen = none ↔
        (truthy (get_best_solution env) = false ∧ truthy gen = false)) := by
  have hgen_none : ∀ gen : Option String,
      generate_path gen = none ↔ truthy gen = false := by
    intro gen
    rcases gen with _ | a
    · simp [generate_path, truthy]
    · by_cases he : a.data.isEmpty = true <;> simp [generate_path, truthy, he]
  refine ⟨?_, ?_, ?_, ?_⟩
  · intro env c hl h
    rcases hop : env.opened with _ | _
    · rw [get_best_solution, hop] at h
      simp at h
    · rw [get_best_solution, hop] at h
      simp only [Bool.not_true, if_false] at h
      rw [find_java_solution] at h
      have hne : env.links.isEmpty = false := by
        rcases hL : env.links with _ | ⟨a, as⟩
        · exact absurd hL hl
        · rfl
      rw [hne] at h
      simp only [Bool.false_eq_true, if_false] at h
      obtain ⟨idx, _, hfx⟩ := findSome?_mem _ _ _ h
      split at hfx
      next code heq =>
        split at hfx
        next hv =>
          injection hfx with hcc
          exact hcc ▸ hv
        next hv => simp at hfx
      next heq => simp at hfx
  · intro env ho hl
    rw [get_best_solution, ho, find_java_solution, hl]
    rfl
  · intro env gen ht
    rcases hg : get_best_solution env with _ | code
    · rw [acquire_code_none env gen hg]
    · rw [hg, truthy] at ht
      have he : code.data.isEmpty = true := by
        rcases hcode : code.data.isEmpty with _ | _
        · rw [hcode] at ht; simp at ht
        · rfl
      rw [acquire_code_some env gen code hg, if_pos he]
  · intro env gen
    rcases hg : get_best_solution env with _ | code
    · rw [acquire_code_none env gen hg, truthy]
      simp [hgen_none gen]
    · by_cases he : code.data.isEmpty = true
      · rw [acquire_code_some env gen code hg, if_pos he]
        simp [truthy, he, hgen_none gen]
      · rw [acquire_code_some env gen code hg, if_neg he]
        simp [truthy, he]

/-- Witness for the amended C9, discharging its hypotheses at the concrete
no-links environment: scraping resolves to the fallback code block. -/
theorem C9_acquisition_policy_witness : get_best_solution envC9 = envC9.fallback :=
  C9_acquisition_policy.2.1 envC9 rfl rfl

/-! ## Claim C10 -/

/-- Looking up a key right after `upsert` yields the updated value. -/
theorem lookupD_upsert {α : Type} (k : String) (init : α) (f : α → α) (d : α) :
    ∀ m : List (String × α), lookupD (upsert k init f m) k d = f (lookupD m k init) := by
  intro m
  induction m with
  | nil => simp [upsert, lookupD]
  | cons kv rest ih =>
    obtain ⟨k2, v⟩ := kv
    by_cases h : k2 = k
    · subst h; simp [upsert, lookupD]
    · simp [upsert, lookupD, h, ih]

/-- Looking up a key after `adjust` yields the adjusted value, provided the
function fixes the default. -/
theorem lookupD_adjust {α : Type} (k : String) (f : α → α) (d : α) (hd : f d = d) :
    ∀ m : List (String × α), lookupD (adjust k f m) k d = f (lookupD m k d) := by
  intro m
  induction m with
  | nil => simpa [adjust, lookupD] using hd.symm
  | cons kv rest ih =>
    obtain ⟨k2, v⟩ := kv
    by_cases h : k2 = k
    · subst h; simp [adjust, lookupD]
    · simp [adjust, lookupD, h, ih]

/-- Two `upsert`s at the same key compose. -/
theorem upsert_upsert {α : Type} (k : String) (init : α) (f g : α → α) :
    ∀ m : List (String × α),
      upsert k init f (upsert k init g m) = upsert k init (fun v => f (g v)) m := by
  intro m
  induction m with
  | nil => simp [upsert]
  | cons kv rest ih =>
    obtain ⟨k2, v⟩ := kv
    by_cases h : k2 = k
    · subst h; simp [upsert]
    · simp [upsert, h, ih]

/-- The result of `upsert` only depends on the pointwise behaviour of its function. -/
theorem upsert_congr {α : Type} (k : String) (init : α) (f g : α → α)
    (h : ∀ v, f v = g v) :
    ∀ m : List (String × α), upsert k init f m = upsert k init g m := by
  intro m
  induction m with
  | nil => simp [upsert, h]
  | cons kv rest ih =>
    obtain ⟨k2, v⟩ := kv
    by_cases hk : k2 = k
    · subst hk; simp [upsert, h]
    · simp [upsert, hk, ih]

/-- A second `adjust` at the same key is a no-op when its function fixes the
value stored there. -/
theorem adjust_adjust_cancel {α : Type} (k : String) (f g : α → α) (d : α) :
    ∀ m : List (String × α), f (g (lookupD m k d)) = g (lookupD m k d) →
      adjust k f (adjust k g m) = adjust k g m := by
  intro m
  induction m with
  | nil => intro _; rfl
  | cons kv rest ih =>
    obtain ⟨k2, v⟩ := kv
    by_cases hk : k2 = k
    · subst hk
      intro h
      simp [lookupD] at h
      simp [adjust, h]
    · intro h
      simp [lookupD, hk] at h
      simp [adjust, hk, ih h]

/-- Appending an id that is already present (or just appended) changes
nothing. -/
theorem appendIfAbsent_idem (p : String) (l : List String) :
    appendIfAbsent p (appendIfAbsent p l) = appendIfAbsent p l := by
  by_cases hm : p ∈ l
  · simp [appendIfAbsent, hm]
  · have hm2 : p ∈ l ++ [p] := by simp
    simp [appendIfAbsent, hm, hm2]

/-- After a guarded append, an id occurring at most once occurs exactly
once. -/
theorem count_appendIfAbsent (p : String) (l : List String)
    (h : l.count p ≤ 1) : (appendIfAbsent p l).count p = 1 := by
  by_cases hm : p ∈ l
  · rw [appendIfAbsent, if_pos hm]
    have h1 : 0 < l.count p := List.count_pos_iff.mpr hm
    omega
  · rw [appendIfAbsent, if_neg hm]
    have h0 : l.count p = 0 := List.count_eq_zero.mpr hm
    simp [List.count_append, h0]

/-- After the guarded removal, an id occurring at most once is gone. -/
theorem removeIfPresent_not_mem (p : String) (l : List String)
    (h : l.count p ≤ 1) : p ∉ removeIfPresent p l := by
  by_cases hm : p ∈ l
  · rw [removeIfPresent, if_pos hm]
    intro hmem
    have hpos : 0 < (l.erase p).count p := List.count_pos_iff.mpr hmem
    have herase : (l.erase p).count p = l.count p - 1 := List.count_erase_self p l
    have h1 : 0 < l.count p := List.count_pos_iff.mpr hm
    omega
  · rw [removeIfPresent, if_neg hm]
    exact hm

/-- The guarded removal is idempotent on lists holding the id at most
once. -/
theorem removeIfPresent_idem (p : String) (l : List String)
    (h : l.count p ≤ 1) :
    removeIfPresent p (removeIfPresent p l) = removeIfPresent p l := by
  have hnm := removeIfPresent_not_mem p l h
  show (if p ∈ removeIfPresent p l then (removeIfPresent p l).erase p
        else removeIfPresent p l) = removeIfPresent p l
  rw [if_neg hnm]

/-- Marking completed rewrites the completed list of its course and day by a
guarded append. -/
theorem completedList_mark_completed (st : ProgressData) (c d p : String) :
    completedList (mark_completed st c d p) c d =
      appendIfAbsent p (completedList st c d) := by
  unfold completedList mark_completed
  rw [lookupD_upsert, lookupD_upsert]

/-- Marking completed rewrites the failed list of its course and day by a
guarded removal. -/
theorem failedList_mark_completed (st : ProgressData) (c d p : String) :
    failedList (mark_completed st c d p) c d =
      removeIfPresent p (failedList st c d) := by
  unfold failedList mark_completed
  rw [lookupD_adjust _ _ _ rfl, lookupD_adjust _ _ _ rfl]

/-- Marking failed rewrites the failed list of its course and day by a
guarded append. -/
theorem failedList_mark_failed (st : ProgressData) (c d p : String) :
    failedList (mark_failed st c d p) c d =
      appendIfAbsent p (failedList st c d) := by
  unfold failedList mark_failed
  rw [lookupD_upsert, lookupD_upsert]

/-- Repeating `mark_completed` with the same arguments leaves the state
unchanged (given the no-duplicates invariant on the failed list). -/
theorem mark_completed_idem (st : ProgressData) (c d p : String)
    (hf : (failedList st c d).count p ≤ 1) :
    mark_completed (mark_completed st c d p) c d p = mark_completed st c d p := by
  have h1 : upsert c ([] : DayMap) (upsert d [] (appendIfAbsent p))
      (upsert c [] (upsert d [] (appendIfAbsent p)) st.completed) =
      upsert c [] (upsert d [] (appendIfAbsent p)) st.completed := by
    rw [upsert_upsert]
    apply upsert_congr
    intro dm
    rw [upsert_upsert]
    apply upsert_congr
    intro l
    exact appendIfAbsent_idem p l
  have h2 : adjust c (adjust d (removeIfPresent p))
      (adjust c (adjust d (removeIfPresent p)) st.failed) =
      adjust c (adjust d (removeIfPresent p)) st.failed := by
    apply adjust_adjust_cancel c _ _ ([] : DayMap) st.failed
    apply adjust_adjust_cancel d _ _ ([] : List String)
    exact removeIfPresent_idem p _ hf
  exact congrArg₂ ProgressData.mk h1 h2

/-- Claim C10: after `mark_completed(course, day, problem_id)` the problem id
appears exactly once in the completed list for that course and day, it is no
longer in the list of the failed tree for the same course and day, and repeating
the call with the same arguments leaves the state unchanged; `mark_failed`
likewise never creates a duplicate entry in the failed list. Each part
assumes the no-duplicates store invariant on the list it touches (lists
reachable through these operations never hold an id twice). -/
theorem C10_progress_marks (st : ProgressData) (c d p : String) :
    ((completedList st c d).count p ≤ 1 →
      (completedList (mark_completed st c d p) c d).count p = 1) ∧
    ((failedList st c d).count p ≤ 1 →
      p ∉ failedList (mark_completed st c d p) c d) ∧
    ((failedList st c d).count p ≤ 1 →
      mark_completed (mark_completed st c d p) c d p = mark_completed st c d p) ∧
    ((failedList st c d).count p ≤ 1 →
      (failedList (mark_failed st c d p) c d).count p = 1) := by
  refine ⟨?_, ?_, ?_, ?_⟩
  · intro h
    rw [completedList_mark_completed]
    exact count_appendIfAbsent p _ h
  · intro h
    rw [failedList_mark_completed]
    exact removeIfPresent_not_mem p _ h
  · intro h
    exact mark_completed_idem st c d p h
  · intro h
    rw [failedList_mark_failed]
    exact count_appendIfAbsent p _ h

/-- A small progress store with one completed and one failed problem. -/
def stC10 : ProgressData :=
  { completed := [("class_problems", [("day_1", ["two-sum"])])],
    failed := [("class_problems", [("day_1", ["reverse-list"])])] }

/-- Witness for C10 at a concrete store: marking a previously failed problem
completed makes it appear exactly once in the completed list. -/
theorem C10_progress_marks_witness :
    (completedList (mark_completed stC10 "class_problems" "day_1" "reverse-list")
      "class_problems" "day_1").count "reverse-list" = 1 :=
  (C10_progress_marks stC10 "class_problems" "day_1" "reverse-list").1 (by decide)

end BytsAgent
